import Mathlib

/-!
Shallow embedding of the SPI flash controller read pipeline
(src/core/spi_controller.py) and verification of its specification.

The transport (spidev) is modelled as an oracle: a function from the index
of the transport exchange (one exchange = the xfer of a command followed by
readbytes of the requested length), the command bytes, and the requested
byte count, to the outcome of that exchange — either a raised exception or
a list of returned bytes.  Exceptions raised by the Python code are modelled
as explicit outcome values; the results of read_firmware keep the three
observable effects: the value returned (or the error propagated) to the
caller, the list of transport requests issued, and the list of progress
notifications emitted.
-/

/-- Outcome of a single transport exchange: the transport either raises an
exception (in xfer or readbytes) or returns a list of bytes. -/
inductive XferOutcome where
  | throws : XferOutcome
  | returns : List Nat → XferOutcome
deriving DecidableEq

/-- The transport oracle: exchange index, command bytes, requested length
to exchange outcome. -/
abbrev Oracle : Type := Nat → List Nat → Nat → XferOutcome

/-- SPI flash command constant CMD_FAST_READ = 0x0B from the source. -/
def CMD_FAST_READ : Nat := 0x0B

/-- SPI flash command constant CMD_READ_ID = 0x9F from the source. -/
def CMD_READ_ID : Nat := 0x9F

/-- The controller's fixed transfer buffer size: self.buffer size = 4096. -/
def buffer_size : Nat := 4096

/-- ChipInfo dataclass from the source. -/
structure ChipInfo where
  manufacturer_id : Nat
  device_id : Nat
  size_mb : Nat
  page_size : Nat
  sector_size : Nat
deriving DecidableEq

/-- Chip capacity in bytes, as computed by read_firmware:
self.chip_info.size_mb * 1024 * 1024. -/
def capacity_bytes (ci : ChipInfo) : Nat := ci.size_mb * 1024 * 1024

/-- The static chip lookup table from detect chip:
chip id to (size_mb, page_size, sector_size). -/
def chip_sizes (chip_id : Nat) : Option (Nat × Nat × Nat) :=
  if chip_id = 0xEF4016 then some (2, 256, 4096)
  else if chip_id = 0xEF4017 then some (4, 256, 4096)
  else if chip_id = 0xEF4018 then some (8, 256, 4096)
  else if chip_id = 0xEF4019 then some (16, 256, 4096)
  else none

/-- Number of positional arguments the ChipInfo initializer accepts in the
source.  The line 22 class SPIController statement is indented inside the
ChipInfo dataclass and its body is only a docstring, so everything after
it at the same indentation — including def init at line 51 with parameters
(self, bus=0, device=0) — is a member of ChipInfo.  The dataclass
decorator does not replace an explicitly defined initializer, so ChipInfo
accepts at most 2 positional arguments. -/
def chipInfo_init_max_args : Nat := 2

/-- The construction ChipInfo(manufacturer_id, device_id, size_mb,
page_size, sector_size) executed at line 140: five positional arguments.
With the initializer above it raises TypeError, modelled as none. -/
def mkChipInfo (manufacturer_id device_id size_mb page_size sector_size : Nat) :
    Option ChipInfo :=
  if 5 ≤ chipInfo_init_max_args then
    some ⟨manufacturer_id, device_id, size_mb, page_size, sector_size⟩
  else none

/-- Model of detect chip, as a function of the outcome of the
readbytes(3) exchange that follows the CMD_READ_ID command.  A transport
exception yields None; a response with fewer than 3 bytes raises IndexError
inside the try block, which is caught and also yields None; on a table hit
the five-argument ChipInfo construction raises TypeError (mkChipInfo),
which the same except clause catches into None. -/
def detect_chip (x : XferOutcome) : Option ChipInfo :=
  match x with
  | .throws => none
  | .returns (r0 :: r1 :: r2 :: _) =>
      let manufacturer_id := r0
      let device_id := (r1 <<< 8) ||| r2
      let chip_id := (manufacturer_id <<< 16) ||| device_id
      match chip_sizes chip_id with
      | some (size_mb, page_size, sector_size) =>
          mkChipInfo manufacturer_id device_id size_mb page_size sector_size
      | none => none
  | .returns _ => none

/-- State of the SPIController relevant to the read pipeline:
the is connected flag, the truthiness of self.spi, and the cached
chip_info. -/
structure Controller where
  is_connected : Bool
  spi : Bool
  chip_info : Option ChipInfo

/-- The fast-read command composed by read chunk:
[CMD_FAST_READ, (address >> 16) & 0xFF, (address >> 8) & 0xFF,
address & 0xFF, 0]. -/
def fastReadCmd (address : Nat) : List Nat :=
  [CMD_FAST_READ, (address >>> 16) % 256, (address >>> 8) % 256, address % 256, 0]

/-- A transport request: the command bytes sent by xfer and the byte count
passed to readbytes. -/
abbrev Request : Type := List Nat × Nat

/-- The attempt loop of read chunk (for attempt in range(3)).  Arguments:
oracle, chunk address, chunk length, current exchange counter, attempts
remaining.  Returns the chunk result (some bytes on a full-length response,
none after all attempts fail), the new exchange counter, and the requests
issued.  A response of the wrong length falls through to the next attempt,
exactly as in the source. -/
def read_chunk_go (o : Oracle) (address length : Nat) (k : Nat) :
    Nat → Option (List Nat) × Nat × List Request
  | 0 => (none, k, [])
  | n + 1 =>
    match o k (fastReadCmd address) length with
    | .returns d =>
        if d.length = length then (some d, k + 1, [(fastReadCmd address, length)])
        else
          let r := read_chunk_go o address length (k + 1) n
          (r.1, r.2.1, (fastReadCmd address, length) :: r.2.2)
    | .throws =>
        let r := read_chunk_go o address length (k + 1) n
        (r.1, r.2.1, (fastReadCmd address, length) :: r.2.2)

/-- Model of read chunk: up to 3 attempts total. -/
def read_chunk (o : Oracle) (k : Nat) (address length : Nat) :
    Option (List Nat) × Nat × List Request :=
  read_chunk_go o address length k 3

/-- Internal outcome of the read loop: either the complete data buffer, or
the state at the IOError raise — the address of the failed chunk and
len(data), the number of bytes accumulated before it. -/
inductive ReadOutcome where
  | complete : List Nat → ReadOutcome
  | aborted : Nat → Nat → ReadOutcome
deriving DecidableEq

/-- Result of running the read loop: the outcome, the final exchange
counter, the transport requests issued, and the progress notifications
(the value len(data) reported after each completed chunk). -/
structure LoopResult where
  outcome : ReadOutcome
  k : Nat
  requests : List Request
  progress : List Nat
deriving DecidableEq

/-- The while remaining > 0 loop of read_firmware.  Each iteration reads a
chunk of min(remaining, buffer_size) bytes; a falsy chunk (None or empty)
raises IOError at the current address, else the data is extended, address
and remaining are updated, and a progress notification with len(data) is
emitted. -/
def readLoop (o : Oracle) (k address remaining : Nat) (data : List Nat) : LoopResult :=
  if h : 0 < remaining then
    let chunk_size := min remaining buffer_size
    let r := read_chunk o k address chunk_size
    match r.1 with
    | none => ⟨.aborted address data.length, r.2.1, r.2.2, []⟩
    | some c =>
      if c = [] then ⟨.aborted address data.length, r.2.1, r.2.2, []⟩
      else
        let rest := readLoop o r.2.1 (address + chunk_size) (remaining - chunk_size) (data ++ c)
        ⟨rest.outcome, rest.k, r.2.2 ++ rest.requests, (data ++ c).length :: rest.progress⟩
  else ⟨.complete data, k, [], []⟩
termination_by remaining
decreasing_by
  exact Nat.sub_lt h (lt_min h (by decide))

/-- Value read_firmware hands to its caller: the ConnectionError propagated
by verify connection, the None returned after a caught exception, or the
bytes of the image. -/
inductive FWResult where
  | notConnected : FWResult
  | failed : FWResult
  | success : List Nat → FWResult
deriving DecidableEq

/-- How the loop outcome surfaces to the caller: the complete buffer is
returned as bytes, and the IOError raised on an aborted chunk is caught by
the except clause, which returns None. -/
def outcomeResult : ReadOutcome → FWResult
  | .complete d => .success d
  | .aborted _ _ => .failed

/-- The length-defaulting logic of read_firmware.  Python truthiness:
if not length and self.chip_info, length defaults to the chip capacity —
this triggers for length None and also for length 0; elif not length,
ValueError is raised (caught, so the call returns None). -/
def eff_length : Option Nat → Option ChipInfo → Option Nat
  | none, some ci => some (capacity_bytes ci)
  | none, none => none
  | some 0, some ci => some (capacity_bytes ci)
  | some 0, none => none
  | some (n + 1), _ => some (n + 1)

/-- Model of read_firmware.  verify connection runs outside the try block,
so its ConnectionError propagates to the caller; everything inside the try
that raises is converted to None (FWResult.failed).  Besides the returned
value, the model exposes the requests issued and the progress
notifications emitted. -/
def read_firmware (c : Controller) (o : Oracle) (start_address : Nat)
    (length : Option Nat) : FWResult × List Request × List Nat :=
  if c.is_connected && c.spi then
    match eff_length length c.chip_info with
    | none => (.failed, [], [])
    | some len =>
      let res := readLoop o 0 start_address len []
      (outcomeResult res.outcome, res.requests, res.progress)
  else (.notConnected, [], [])

/-- The chunk schedule of the loop: the sizes min(remaining, buffer_size)
of the successive chunks covering a given number of remaining bytes. -/
def chunkSizes (remaining : Nat) : List Nat :=
  if h : 0 < remaining then
    min remaining buffer_size :: chunkSizes (remaining - min remaining buffer_size)
  else []
termination_by remaining
decreasing_by
  exact Nat.sub_lt h (lt_min h (by decide))

/-- Running partial sums of a list, starting from acc: the successive
values of len(data) after each chunk. -/
def partialSumsFrom (acc : Nat) : List Nat → List Nat
  | [] => []
  | x :: xs => (acc + x) :: partialSumsFrom (acc + x) xs

/-- A transport that never raises: every exchange returns resp applied to
the exchange index, the command and the requested length. -/
def goodOracle (resp : Nat → List Nat → Nat → List Nat) : Oracle :=
  fun k cmd len => .returns (resp k cmd len)

/-- A response function models a never-failing transport when every
response has exactly the requested length. -/
def GoodResp (resp : Nat → List Nat → Nat → List Nat) : Prop :=
  ∀ k cmd len, (resp k cmd len).length = len

/-- The concatenation, in increasing address order, of the per-chunk
transport responses that the chunking logic requests from exchange
counter k onward. -/
def goodReadData (resp : Nat → List Nat → Nat → List Nat)
    (k address remaining : Nat) : List Nat :=
  if h : 0 < remaining then
    resp k (fastReadCmd address) (min remaining buffer_size) ++
      goodReadData resp (k + 1) (address + min remaining buffer_size)
        (remaining - min remaining buffer_size)
  else []
termination_by remaining
decreasing_by
  exact Nat.sub_lt h (lt_min h (by decide))

theorem read_chunk_go_requests_le (o : Oracle) (address length : Nat) :
    ∀ n k, (read_chunk_go o address length k n).2.2.length ≤ n := by
  intro n
  induction n with
  | zero => intro k; simp [read_chunk_go]
  | succ n ih =>
      intro k
      rw [read_chunk_go]
      cases h : o k (fastReadCmd address) length with
      | throws => simpa using Nat.succ_le_succ (ih (k + 1))
      | returns d =>
          by_cases hd : d.length = length
          · simp [hd]
          · simpa [hd] using Nat.succ_le_succ (ih (k + 1))

theorem read_chunk_go_length (o : Oracle) (address length : Nat) :
    ∀ n k d, (read_chunk_go o address length k n).1 = some d → d.length = length := by
  intro n
  induction n with
  | zero => intro k d h; simp [read_chunk_go] at h
  | succ n ih =>
      intro k d h
      rw [read_chunk_go] at h
      cases ho : o k (fastReadCmd address) length with
      | throws =>
          rw [ho] at h
          exact ih (k + 1) d h
      | returns e =>
          rw [ho] at h
          by_cases he : e.length = length
          · simp [he] at h
            subst h
            exact he
          · simp [he] at h
            exact ih (k + 1) d h

theorem read_chunk_length (o : Oracle) (k address length : Nat) (d : List Nat)
    (h : (read_chunk o k address length).1 = some d) : d.length = length :=
  read_chunk_go_length o address length 3 k d h

theorem read_chunk_go_congr (o : Oracle) (address address' length : Nat)
    (hcmd : fastReadCmd address = fastReadCmd address') :
    ∀ n k, read_chunk_go o address length k n = read_chunk_go o address' length k n := by
  intro n
  induction n with
  | zero => intro k; simp [read_chunk_go]
  | succ n ih =>
      intro k
      rw [read_chunk_go, read_chunk_go, hcmd, ih (k + 1)]

theorem read_chunk_good (resp : Nat → List Nat → Nat → List Nat)
    (hresp : GoodResp resp) (k address length : Nat) :
    read_chunk (goodOracle resp) k address length =
      (some (resp k (fastReadCmd address) length), k + 1,
        [(fastReadCmd address, length)]) := by
  rw [read_chunk, read_chunk_go]
  simp [goodOracle, hresp k (fastReadCmd address) length]

theorem chunkSizes_eq_nil : chunkSizes 0 = [] := by
  rw [chunkSizes]
  simp

theorem chunkSizes_eq_cons (r : Nat) (h : 0 < r) :
    chunkSizes r = min r buffer_size :: chunkSizes (r - min r buffer_size) := by
  rw [chunkSizes]
  simp [h]

theorem chunkSizes_sum (r : Nat) : (chunkSizes r).sum = r := by
  induction r using Nat.strong_induction_on with
  | _ r ih =>
      by_cases h : 0 < r
      · rw [chunkSizes_eq_cons r h, List.sum_cons,
          ih (r - min r buffer_size) (Nat.sub_lt h (lt_min h (by decide)))]
        omega
      · have h0 : r = 0 := by omega
        subst h0
        simp [chunkSizes_eq_nil]

theorem chunkSizes_pos (r : Nat) : ∀ x ∈ chunkSizes r, 0 < x := by
  induction r using Nat.strong_induction_on with
  | _ r ih =>
      by_cases h : 0 < r
      · rw [chunkSizes_eq_cons r h]
        intro x hx
        rcases List.mem_cons.mp hx with hx | hx
        · subst hx
          exact lt_min h (by decide)
        · exact ih (r - min r buffer_size) (Nat.sub_lt h (lt_min h (by decide))) x hx
      · have h0 : r = 0 := by omega
        subst h0
        simp [chunkSizes_eq_nil]

theorem chunkSizes_ne_nil (r : Nat) (h : 0 < r) : chunkSizes r ≠ [] := by
  rw [chunkSizes_eq_cons r h]
  simp

theorem take_sum_lt_of_pos (l : List Nat) (hpos : ∀ x ∈ l, 0 < x) :
    ∀ i, i < l.length → (l.take i).sum < l.sum := by
  induction l with
  | nil => intro i hi; simp at hi
  | cons x xs ih =>
      intro i hi
      cases i with
      | zero =>
          have hx : 0 < x := hpos x (List.mem_cons_self x xs)
          have : (xs : List Nat).sum ≥ 0 := Nat.zero_le _
          simp [List.sum_cons]
          omega
      | succ i =>
          have hxs : ∀ y ∈ xs, 0 < y := fun y hy => hpos y (List.mem_cons_of_mem x hy)
          have := ih hxs i (by simpa using Nat.lt_of_succ_lt_succ hi)
          simp [List.sum_cons, List.take_succ_cons]
          omega

theorem partialSumsFrom_getLastD (l : List Nat) :
    ∀ acc, (partialSumsFrom acc l).getLastD acc = acc + l.sum := by
  induction l with
  | nil => intro acc; simp [partialSumsFrom]
  | cons x xs ih =>
      intro acc
      rw [partialSumsFrom]
      rw [List.getLastD_cons]
      rw [ih (acc + x)]
      simp [List.sum_cons]
      omega

theorem partialSumsFrom_chain (l : List Nat) (hpos : ∀ x ∈ l, 0 < x) :
    ∀ acc, List.Chain' (· < ·) (partialSumsFrom acc l) := by
  induction l with
  | nil => intro acc; simp [partialSumsFrom]
  | cons x xs ih =>
      intro acc
      rw [partialSumsFrom]
      have hxs : ∀ y ∈ xs, 0 < y := fun y hy => hpos y (List.mem_cons_of_mem x hy)
      apply List.chain'_cons'.mpr
      refine ⟨?_, ih hxs (acc + x)⟩
      intro y hy
      cases xs with
      | nil => simp [partialSumsFrom] at hy
      | cons z zs =>
          rw [partialSumsFrom] at hy
          simp at hy
          subst hy
          have hz : 0 < z := hpos z (by simp)
          omega

theorem readLoop_zero (o : Oracle) (k address : Nat) (data : List Nat) :
    readLoop o k address 0 data = ⟨.complete data, k, [], []⟩ := by
  rw [readLoop]
  simp

theorem readLoop_none (o : Oracle) (k address remaining : Nat) (data : List Nat)
    (h : 0 < remaining)
    (hc : (read_chunk o k address (min remaining buffer_size)).1 = none) :
    readLoop o k address remaining data =
      ⟨.aborted address data.length,
        (read_chunk o k address (min remaining buffer_size)).2.1,
        (read_chunk o k address (min remaining buffer_size)).2.2, []⟩ := by
  rw [readLoop]
  simp [h, hc]

theorem readLoop_some (o : Oracle) (k address remaining : Nat) (data c : List Nat)
    (h : 0 < remaining)
    (hc : (read_chunk o k address (min remaining buffer_size)).1 = some c)
    (hne : c ≠ []) :
    readLoop o k address remaining data =
      ⟨(readLoop o (read_chunk o k address (min remaining buffer_size)).2.1
          (address + min remaining buffer_size) (remaining - min remaining buffer_size)
          (data ++ c)).outcome,
        (readLoop o (read_chunk o k address (min remaining buffer_size)).2.1
          (address + min remaining buffer_size) (remaining - min remaining buffer_size)
          (data ++ c)).k,
        (read_chunk o k address (min remaining buffer_size)).2.2 ++
          (readLoop o (read_chunk o k address (min remaining buffer_size)).2.1
            (address + min remaining buffer_size) (remaining - min remaining buffer_size)
            (data ++ c)).requests,
        (data ++ c).length ::
          (readLoop o (read_chunk o k address (min remaining buffer_size)).2.1
            (address + min remaining buffer_size) (remaining - min remaining buffer_size)
            (data ++ c)).progress⟩ := by
  rw [readLoop]
  simp [h, hc, hne]

theorem readLoop_some_nil (o : Oracle) (k address remaining : Nat) (data : List Nat)
    (h : 0 < remaining)
    (hc : (read_chunk o k address (min remaining buffer_size)).1 = some []) :
    readLoop o k address remaining data =
      ⟨.aborted address data.length,
        (read_chunk o k address (min remaining buffer_size)).2.1,
        (read_chunk o k address (min remaining buffer_size)).2.2, []⟩ := by
  rw [readLoop]
  simp [h, hc]

theorem readLoop_complete_spec (o : Oracle) :
    ∀ remaining k address data d,
      (readLoop o k address remaining data).outcome = .complete d →
      d.length = data.length + remaining ∧
      (readLoop o k address remaining data).progress =
        partialSumsFrom data.length (chunkSizes remaining) := by
  intro remaining
  induction remaining using Nat.strong_induction_on with
  | _ remaining ih =>
      intro k address data d h
      by_cases hr : 0 < remaining
      · have hmin : 0 < min remaining buffer_size := lt_min hr (by decide)
        have hlt : remaining - min remaining buffer_size < remaining :=
          Nat.sub_lt hr hmin
        cases hc : (read_chunk o k address (min remaining buffer_size)).1 with
        | none =>
            rw [readLoop_none o k address remaining data hr hc] at h
            simp at h
        | some c =>
            have hclen : c.length = min remaining buffer_size :=
              read_chunk_length o k address _ c hc
            have hcne : c ≠ [] := by
              intro hnil
              rw [hnil] at hclen
              simp at hclen
              omega
            rw [readLoop_some o k address remaining data c hr hc hcne] at h
            simp only at h
            obtain ⟨hd, hprog⟩ := ih (remaining - min remaining buffer_size) hlt _ _ _ _ h
            have hlen : (data ++ c).length = data.length + min remaining buffer_size := by
              simp [hclen]
            have hle : min remaining buffer_size ≤ remaining := Nat.min_le_left _ _
            constructor
            · rw [hd, hlen]
              omega
            · rw [readLoop_some o k address remaining data c hr hc hcne]
              simp only
              rw [chunkSizes_eq_cons remaining hr]
              rw [partialSumsFrom]
              rw [hprog, hlen]
      · have h0 : remaining = 0 := by omega
        subst h0
        rw [readLoop_zero] at h
        simp at h
        subst h
        rw [readLoop_zero]
        simp [chunkSizes_eq_nil, partialSumsFrom]

theorem readLoop_aborted_spec (o : Oracle) :
    ∀ remaining k address data a p,
      (readLoop o k address remaining data).outcome = .aborted a p →
      ∃ i, i < (chunkSizes remaining).length ∧
        a = address + ((chunkSizes remaining).take i).sum ∧
        p = data.length + ((chunkSizes remaining).take i).sum ∧
        (readLoop o k address remaining data).progress =
          partialSumsFrom data.length ((chunkSizes remaining).take i) := by
  intro remaining
  induction remaining using Nat.strong_induction_on with
  | _ remaining ih =>
      intro k address data a p h
      by_cases hr : 0 < remaining
      · have hmin : 0 < min remaining buffer_size := lt_min hr (by decide)
        have hlt : remaining - min remaining buffer_size < remaining :=
          Nat.sub_lt hr hmin
        cases hc : (read_chunk o k address (min remaining buffer_size)).1 with
        | none =>
            rw [readLoop_none o k address remaining data hr hc] at h
            simp only [ReadOutcome.aborted.injEq] at h
            refine ⟨0, ?_, ?_, ?_, ?_⟩
            · rw [chunkSizes_eq_cons remaining hr]
              simp
            · simp [h.1.symm]
            · simp [h.2.symm]
            · rw [readLoop_none o k address remaining data hr hc]
              simp [partialSumsFrom]
        | some c =>
            have hclen : c.length = min remaining buffer_size :=
              read_chunk_length o k address _ c hc
            have hcne : c ≠ [] := by
              intro hnil
              rw [hnil] at hclen
              simp at hclen
              omega
            rw [readLoop_some o k address remaining data c hr hc hcne] at h
            simp only at h
            obtain ⟨i, hi, ha, hp, hprog⟩ := ih (remaining - min remaining buffer_size) hlt _ _ _ _ _ h
            have hlen : (data ++ c).length = data.length + min remaining buffer_size := by
              simp [hclen]
            refine ⟨i + 1, ?_, ?_, ?_, ?_⟩
            · rw [chunkSizes_eq_cons remaining hr]
              simpa using hi
            · rw [chunkSizes_eq_cons remaining hr]
              rw [List.take_succ_cons, List.sum_cons]
              rw [ha, hlen] at *
              omega
            · rw [chunkSizes_eq_cons remaining hr]
              rw [List.take_succ_cons, List.sum_cons]
              rw [hp, hlen]
              omega
            · rw [readLoop_some o k address remaining data c hr hc hcne]
              simp only
              rw [chunkSizes_eq_cons remaining hr]
              rw [List.take_succ_cons]
              rw [partialSumsFrom]
              rw [hprog, hlen]
      · have h0 : remaining = 0 := by omega
        subst h0
        rw [readLoop_zero] at h
        simp at h

/-- The transport requests issued by the loop under a never-failing
transport: one fast-read request per chunk of the schedule. -/
def goodRequests (address remaining : Nat) : List Request :=
  if h : 0 < remaining then
    (fastReadCmd address, min remaining buffer_size) ::
      goodRequests (address + min remaining buffer_size)
        (remaining - min remaining buffer_size)
  else []
termination_by remaining
decreasing_by
  exact Nat.sub_lt h (lt_min h (by decide))

theorem goodRequests_eq_nil (address : Nat) : goodRequests address 0 = [] := by
  rw [goodRequests]
  simp

theorem goodRequests_eq_cons (address r : Nat) (h : 0 < r) :
    goodRequests address r =
      (fastReadCmd address, min r buffer_size) ::
        goodRequests (address + min r buffer_size) (r - min r buffer_size) := by
  rw [goodRequests]
  simp [h]

theorem goodRequests_map_snd (r : Nat) :
    ∀ address, (goodRequests address r).map Prod.snd = chunkSizes r := by
  induction r using Nat.strong_induction_on with
  | _ r ih =>
      intro address
      by_cases h : 0 < r
      · rw [goodRequests_eq_cons address r h, chunkSizes_eq_cons r h]
        simp only [List.map_cons]
        rw [ih (r - min r buffer_size) (Nat.sub_lt h (lt_min h (by decide)))]
      · have h0 : r = 0 := by omega
        subst h0
        simp [goodRequests_eq_nil, chunkSizes_eq_nil]

theorem goodReadData_eq_nil (resp : Nat → List Nat → Nat → List Nat)
    (k address : Nat) : goodReadData resp k address 0 = [] := by
  rw [goodReadData]
  simp

theorem goodReadData_eq_cons (resp : Nat → List Nat → Nat → List Nat)
    (k address r : Nat) (h : 0 < r) :
    goodReadData resp k address r =
      resp k (fastReadCmd address) (min r buffer_size) ++
        goodReadData resp (k + 1) (address + min r buffer_size)
          (r - min r buffer_size) := by
  rw [goodReadData]
  simp [h]

theorem goodReadData_length (resp : Nat → List Nat → Nat → List Nat)
    (hresp : GoodResp resp) :
    ∀ r k address, (goodReadData resp k address r).length = r := by
  intro r
  induction r using Nat.strong_induction_on with
  | _ r ih =>
      intro k address
      by_cases h : 0 < r
      · rw [goodReadData_eq_cons resp k address r h]
        rw [List.length_append]
        rw [ih (r - min r buffer_size) (Nat.sub_lt h (lt_min h (by decide)))]
        rw [hresp]
        have : min r buffer_size ≤ r := Nat.min_le_left _ _
        omega
      · have h0 : r = 0 := by omega
        subst h0
        simp [goodReadData_eq_nil]

theorem readLoop_good (resp : Nat → List Nat → Nat → List Nat)
    (hresp : GoodResp resp) :
    ∀ remaining k address data,
      readLoop (goodOracle resp) k address remaining data =
        ⟨.complete (data ++ goodReadData resp k address remaining),
          k + (chunkSizes remaining).length,
          goodRequests address remaining,
          partialSumsFrom data.length (chunkSizes remaining)⟩ := by
  intro remaining
  induction remaining using Nat.strong_induction_on with
  | _ remaining ih =>
      intro k address data
      by_cases hr : 0 < remaining
      · have hmin : 0 < min remaining buffer_size := lt_min hr (by decide)
        have hlt : remaining - min remaining buffer_size < remaining :=
          Nat.sub_lt hr hmin
        have hchunk := read_chunk_good resp hresp k address (min remaining buffer_size)
        have hc : (read_chunk (goodOracle resp) k address (min remaining buffer_size)).1 =
            some (resp k (fastReadCmd address) (min remaining buffer_size)) := by
          rw [hchunk]
        have hclen : (resp k (fastReadCmd address) (min remaining buffer_size)).length =
            min remaining buffer_size := hresp _ _ _
        have hcne : resp k (fastReadCmd address) (min remaining buffer_size) ≠ [] := by
          intro hnil
          rw [hnil] at hclen
          simp at hclen
          omega
        rw [readLoop_some (goodOracle resp) k address remaining data _ hr hc hcne]
        rw [hchunk]
        simp only
        rw [ih (remaining - min remaining buffer_size) hlt]
        rw [chunkSizes_eq_cons remaining hr]
        rw [goodRequests_eq_cons address remaining hr]
        rw [goodReadData_eq_cons resp k address remaining hr]
        have hlen : (data ++ resp k (fastReadCmd address) (min remaining buffer_size)).length =
            data.length + min remaining buffer_size := by
          simp [hclen]
        simp only [LoopResult.mk.injEq]
        refine ⟨?_, ?_, ?_, ?_⟩
        · rw [List.append_assoc]
        · simp only [List.length_cons]
          omega
        · simp
        · rw [partialSumsFrom]
          rw [hlen]
      · have h0 : remaining = 0 := by omega
        subst h0
        rw [readLoop_zero]
        simp [chunkSizes_eq_nil, goodRequests_eq_nil, goodReadData_eq_nil, partialSumsFrom]

/-- A single attempt fails when the exchange raises or returns a byte list
of the wrong length. -/
def attemptFails (o : Oracle) (k : Nat) (cmd : List Nat) (len : Nat) : Prop :=
  o k cmd len = .throws ∨ ∃ d, o k cmd len = .returns d ∧ d.length ≠ len

theorem read_chunk_go_fail_step (o : Oracle) (address length k n : Nat)
    (hf : attemptFails o k (fastReadCmd address) length) :
    read_chunk_go o address length k (n + 1) =
      ((read_chunk_go o address length (k + 1) n).1,
        (read_chunk_go o address length (k + 1) n).2.1,
        (fastReadCmd address, length) ::
          (read_chunk_go o address length (k + 1) n).2.2) := by
  rcases hf with hf | ⟨d, hd, hlen⟩
  · rw [read_chunk_go, hf]
  · rw [read_chunk_go, hd]
    simp [hlen]

theorem read_chunk_retry (o : Oracle) (address length k : Nat) (d : List Nat)
    (h1 : attemptFails o k (fastReadCmd address) length)
    (h2 : attemptFails o (k + 1) (fastReadCmd address) length)
    (h3 : o (k + 2) (fastReadCmd address) length = .returns d)
    (hd : d.length = length) :
    read_chunk o k address length =
      (some d, k + 3,
        [(fastReadCmd address, length), (fastReadCmd address, length),
          (fastReadCmd address, length)]) := by
  rw [read_chunk]
  rw [read_chunk_go_fail_step o address length k 2 h1]
  rw [read_chunk_go_fail_step o address length (k + 1) 1 h2]
  rw [read_chunk_go, h3]
  simp [hd]

/-- A transport that fails every chunk transaction on its first two
attempts and succeeds, with a full-length response, on the third. -/
def RetryPattern (o : Oracle) : Prop :=
  ∀ j cmd len, attemptFails o (3 * j) cmd len ∧
    attemptFails o (3 * j + 1) cmd len ∧
    ∃ d, o (3 * j + 2) cmd len = .returns d ∧ d.length = len

theorem readLoop_retry (o : Oracle) (hpat : RetryPattern o) :
    ∀ remaining m address data,
      ∃ d, (readLoop o (3 * m) address remaining data).outcome = .complete d ∧
        d.length = data.length + remaining := by
  intro remaining
  induction remaining using Nat.strong_induction_on with
  | _ remaining ih =>
      intro m address data
      by_cases hr : 0 < remaining
      · have hmin : 0 < min remaining buffer_size := lt_min hr (by decide)
        have hlt : remaining - min remaining buffer_size < remaining :=
          Nat.sub_lt hr hmin
        obtain ⟨h1, h2, c, h3, hclen⟩ :=
          hpat m (fastReadCmd address) (min remaining buffer_size)
        have hchunk := read_chunk_retry o address (min remaining buffer_size)
          (3 * m) c h1 h2 h3 hclen
        have hc : (read_chunk o (3 * m) address (min remaining buffer_size)).1 =
            some c := by rw [hchunk]
        have hcne : c ≠ [] := by
          intro hnil
          rw [hnil] at hclen
          simp at hclen
          omega
        rw [readLoop_some o (3 * m) address remaining data c hr hc hcne]
        simp only
        have hk : (read_chunk o (3 * m) address (min remaining buffer_size)).2.1 =
            3 * (m + 1) := by
          rw [hchunk]
          show 3 * m + 3 = 3 * (m + 1)
          omega
        rw [hk]
        obtain ⟨d, hout, hlen⟩ :=
          ih (remaining - min remaining buffer_size) hlt (m + 1)
            (address + min remaining buffer_size) (data ++ c)
        refine ⟨d, hout, ?_⟩
        rw [hlen]
        simp only [List.length_append]
        rw [hclen]
        have : min remaining buffer_size ≤ remaining := Nat.min_le_left _ _
        omega
      · have h0 : remaining = 0 := by omega
        subst h0
        rw [readLoop_zero]
        exact ⟨data, rfl, by omega⟩

theorem fastReadCmd_congr (a a' : Nat) (h : a % 2 ^ 24 = a' % 2 ^ 24) :
    fastReadCmd a = fastReadCmd a' := by
  have h' : a % 16777216 = a' % 16777216 := by
    norm_num at h
    exact h
  simp only [fastReadCmd, Nat.shiftRight_eq_div_pow, List.cons.injEq, and_true]
  norm_num
  omega

theorem readLoop_addr_congr (o : Oracle) :
    ∀ remaining k a a' data, a % 2 ^ 24 = a' % 2 ^ 24 →
      outcomeResult (readLoop o k a remaining data).outcome =
        outcomeResult (readLoop o k a' remaining data).outcome ∧
      (readLoop o k a remaining data).k = (readLoop o k a' remaining data).k ∧
      (readLoop o k a remaining data).requests =
        (readLoop o k a' remaining data).requests ∧
      (readLoop o k a remaining data).progress =
        (readLoop o k a' remaining data).progress := by
  intro remaining
  induction remaining using Nat.strong_induction_on with
  | _ remaining ih =>
      intro k a a' data h
      by_cases hr : 0 < remaining
      · have hmin : 0 < min remaining buffer_size := lt_min hr (by decide)
        have hlt : remaining - min remaining buffer_size < remaining :=
          Nat.sub_lt hr hmin
        have hcmd : fastReadCmd a = fastReadCmd a' := fastReadCmd_congr a a' h
        have hchunk : read_chunk o k a (min remaining buffer_size) =
            read_chunk o k a' (min remaining buffer_size) := by
          rw [read_chunk, read_chunk]
          exact read_chunk_go_congr o a a' (min remaining buffer_size) hcmd 3 k
        cases hc : (read_chunk o k a (min remaining buffer_size)).1 with
        | none =>
            have hc' : (read_chunk o k a' (min remaining buffer_size)).1 = none := by
              rw [← hchunk]
              exact hc
            rw [readLoop_none o k a remaining data hr hc]
            rw [readLoop_none o k a' remaining data hr hc']
            rw [hchunk]
            exact ⟨rfl, rfl, rfl, rfl⟩
        | some c =>
            have hc' : (read_chunk o k a' (min remaining buffer_size)).1 = some c := by
              rw [← hchunk]
              exact hc
            by_cases hcnil : c = []
            · subst hcnil
              rw [readLoop_some_nil o k a remaining data hr hc]
              rw [readLoop_some_nil o k a' remaining data hr hc']
              rw [hchunk]
              exact ⟨rfl, rfl, rfl, rfl⟩
            · have hmod : (a + min remaining buffer_size) % 2 ^ 24 =
                  (a' + min remaining buffer_size) % 2 ^ 24 := by
                omega
              obtain ⟨ho, hk, hreq, hprog⟩ :=
                ih (remaining - min remaining buffer_size) hlt
                  (read_chunk o k a (min remaining buffer_size)).2.1
                  (a + min remaining buffer_size) (a' + min remaining buffer_size)
                  (data ++ c) hmod
              rw [readLoop_some o k a remaining data c hr hc hcnil]
              rw [readLoop_some o k a' remaining data c hr hc' hcnil]
              simp only
              rw [hchunk] at ho hk hreq hprog ⊢
              refine ⟨?_, hk, ?_, ?_⟩
              · cases hco : (readLoop o (read_chunk o k a' (min remaining buffer_size)).2.1
                    (a + min remaining buffer_size)
                    (remaining - min remaining buffer_size) (data ++ c)).outcome with
                | complete d =>
                    rw [hco] at ho
                    cases hco' : (readLoop o (read_chunk o k a' (min remaining buffer_size)).2.1
                        (a' + min remaining buffer_size)
                        (remaining - min remaining buffer_size) (data ++ c)).outcome with
                    | complete d' =>
                        rw [hco'] at ho
                        simp [outcomeResult] at ho ⊢
                        exact ho
                    | aborted x y =>
                        rw [hco'] at ho
                        simp [outcomeResult] at ho
                | aborted x y =>
                    rw [hco] at ho
                    cases hco' : (readLoop o (read_chunk o k a' (min remaining buffer_size)).2.1
                        (a' + min remaining buffer_size)
                        (remaining - min remaining buffer_size) (data ++ c)).outcome with
                    | complete d' =>
                        rw [hco'] at ho
                        simp [outcomeResult] at ho
                    | aborted x' y' =>
                        simp [outcomeResult]
              · rw [hreq]
              · rw [hprog]
      · have h0 : remaining = 0 := by omega
        subst h0
        rw [readLoop_zero, readLoop_zero]
        exact ⟨rfl, rfl, rfl, rfl⟩

theorem eff_length_some_pos (L : Nat) (hL : 0 < L) (ci : Option ChipInfo) :
    eff_length (some L) ci = some L := by
  cases L with
  | zero => omega
  | succ n => rfl

theorem read_firmware_run (c : Controller) (o : Oracle) (start : Nat)
    (len : Option Nat) (L : Nat)
    (hcon : c.is_connected = true) (hspi : c.spi = true)
    (heff : eff_length len c.chip_info = some L) :
    read_firmware c o start len =
      (outcomeResult (readLoop o 0 start L []).outcome,
        (readLoop o 0 start L []).requests,
        (readLoop o 0 start L []).progress) := by
  rw [read_firmware]
  simp [hcon, hspi, heff]

theorem read_firmware_no_session (c : Controller) (o : Oracle) (start : Nat)
    (len : Option Nat) (h : c.is_connected = false ∨ c.spi = false) :
    read_firmware c o start len = (.notConnected, [], []) := by
  rw [read_firmware]
  rcases h with h | h <;> simp [h]

/-- A response function returning zero bytes of the requested length:
a concrete never-failing transport. -/
def respZero : Nat → List Nat → Nat → List Nat :=
  fun _ _ len => List.replicate len 0

theorem respZero_good : GoodResp respZero := by
  intro k cmd len
  simp [respZero]

/-- A transport on which every exchange raises. -/
def throwOracle : Oracle := fun _ _ _ => .throws

/-- C1: for every start_address and every length > 0, if the session is
connected and every transport exchange succeeds (each chunk transaction
returns exactly the requested number of bytes), then read_firmware returns
a byte sequence of exactly length bytes equal to the concatenation, in
increasing address order, of the per-chunk transport responses; it never
returns a shorter buffer as success. -/
theorem c1_success_concatenation (c : Controller)
    (resp : Nat → List Nat → Nat → List Nat) (start L : Nat)
    (hcon : c.is_connected = true) (hspi : c.spi = true)
    (hresp : GoodResp resp) (hL : 0 < L) :
    read_firmware c (goodOracle resp) start (some L) =
      (.success (goodReadData resp 0 start L), goodRequests start L,
        partialSumsFrom 0 (chunkSizes L)) ∧
    (goodReadData resp 0 start L).length = L := by
  constructor
  · rw [read_firmware_run c (goodOracle resp) start (some L) L hcon hspi
      (eff_length_some_pos L hL _)]
    rw [readLoop_good resp hresp L 0 start []]
    simp [outcomeResult]
  · exact goodReadData_length resp hresp L 0 start

theorem c1_success_concatenation_witness :
    GoodResp respZero ∧ 0 < 5 ∧
    (read_firmware ⟨true, true, none⟩ (goodOracle respZero) 0 (some 5) =
      (.success (goodReadData respZero 0 0 5), goodRequests 0 5,
        partialSumsFrom 0 (chunkSizes 5)) ∧
      (goodReadData respZero 0 0 5).length = 5) :=
  ⟨respZero_good, by decide,
    c1_success_concatenation ⟨true, true, none⟩ respZero 0 5 rfl rfl
      respZero_good (by decide)⟩

/-- C4: for every chunk, the chunk reader makes at most 3 transport
attempts in total; and for every read in which each chunk transaction
fails on its first two attempts but succeeds on the third with exactly the
requested bytes, the overall read still succeeds with the full length. -/
theorem c4_retry_budget (o : Oracle) (c : Controller) (start L : Nat)
    (hcon : c.is_connected = true) (hspi : c.spi = true)
    (hpat : RetryPattern o) (hL : 0 < L) :
    (∀ (o' : Oracle) (k address len : Nat),
      (read_chunk o' k address len).2.2.length ≤ 3) ∧
    ∃ d, (read_firmware c o start (some L)).1 = .success d ∧ d.length = L := by
  constructor
  · intro o' k address len
    exact read_chunk_go_requests_le o' address len 3 k
  · obtain ⟨d, hout, hlen⟩ := readLoop_retry o hpat L 0 start []
    rw [read_firmware_run c o start (some L) L hcon hspi
      (eff_length_some_pos L hL _)]
    refine ⟨d, ?_, ?_⟩
    · simp only [Nat.mul_zero] at hout
      simp only
      rw [hout]
      rfl
    · simpa using hlen

/-- Concrete transport for the retry-then-recover scenario: the first two
attempts of every chunk raise, the third returns a full-length response. -/
def retryOracle : Oracle := fun k _ len =>
  if k % 3 = 2 then .returns (List.replicate len 3) else .throws

theorem retryOracle_pattern : RetryPattern retryOracle := by
  intro j cmd len
  refine ⟨?_, ?_, ?_⟩
  · left
    have h : (3 * j) % 3 = 0 := by omega
    simp [retryOracle, h]
  · left
    have h : (3 * j + 1) % 3 = 1 := by omega
    simp [retryOracle, h]
  · refine ⟨List.replicate len 3, ?_, by simp⟩
    have h : (3 * j + 2) % 3 = 2 := by omega
    simp [retryOracle, h]

theorem c4_retry_budget_witness :
    RetryPattern retryOracle ∧ 0 < 5 ∧
    ((∀ (o' : Oracle) (k address len : Nat),
        (read_chunk o' k address len).2.2.length ≤ 3) ∧
      ∃ d, (read_firmware ⟨true, true, none⟩ retryOracle 0 (some 5)).1 =
          .success d ∧ d.length = 5) :=
  ⟨retryOracle_pattern, by decide,
    c4_retry_budget retryOracle ⟨true, true, none⟩ 0 5 rfl rfl
      retryOracle_pattern (by decide)⟩

/-- C5: for a read request with length = MAX_TRANSFER_SIZE + 1 = 4097 on a
never-failing transport, exactly two chunk transactions occur, of sizes
4096 and 1; in general each iteration requests
chunk_size = min(remaining, buffer_size). -/
theorem c5_chunk_schedule (c : Controller)
    (resp : Nat → List Nat → Nat → List Nat) (start : Nat)
    (hcon : c.is_connected = true) (hspi : c.spi = true)
    (hresp : GoodResp resp) :
    (read_firmware c (goodOracle resp) start (some 4097)).2.1.map Prod.snd =
      [4096, 1] ∧
    ∀ L, 0 < L →
      (read_firmware c (goodOracle resp) start (some L)).2.1.map Prod.snd =
        chunkSizes L := by
  have hgen : ∀ L, 0 < L →
      (read_firmware c (goodOracle resp) start (some L)).2.1.map Prod.snd =
        chunkSizes L := by
    intro L hL
    rw [read_firmware_run c (goodOracle resp) start (some L) L hcon hspi
      (eff_length_some_pos L hL _)]
    simp only
    rw [readLoop_good resp hresp L 0 start []]
    exact goodRequests_map_snd L start
  refine ⟨?_, hgen⟩
  rw [hgen 4097 (by norm_num)]
  have h1 : min 4097 buffer_size = 4096 := by decide
  have h2 : min 1 buffer_size = 1 := by decide
  rw [chunkSizes_eq_cons 4097 (by norm_num), h1]
  norm_num
  rw [chunkSizes_eq_cons 1 (by norm_num), h2]
  norm_num
  exact chunkSizes_eq_nil

theorem c5_chunk_schedule_witness :
    GoodResp respZero ∧
    ((read_firmware ⟨true, true, none⟩ (goodOracle respZero) 0
        (some 4097)).2.1.map Prod.snd = [4096, 1] ∧
      ∀ L, 0 < L →
        (read_firmware ⟨true, true, none⟩ (goodOracle respZero) 0
          (some L)).2.1.map Prod.snd = chunkSizes L) :=
  ⟨respZero_good,
    c5_chunk_schedule ⟨true, true, none⟩ respZero 0 rfl rfl respZero_good⟩

/-- C6 is violated by the code: identification response bytes
[0xEF, 0x40, 0x17] do compute the big-endian 24-bit key 0xEF4017 and hit
the table entry (4, 256, 4096) — the intended W25Q32 identity with
capacity 4 MiB — but the five-argument ChipInfo construction at line 140
raises TypeError (the misindented two-argument initializer at line 51
belongs to ChipInfo and the dataclass decorator keeps it), the except
clause swallows it, and detect chip returns None for every response,
[0xEF, 0x40, 0x17] included; [0x00, 0x00, 0x00] also yields None, as the
claim says, but for the identity the claim is false of the code. -/
theorem c6_detect_chip_typeerror :
    detect_chip (.returns [0xEF, 0x40, 0x17]) = none ∧
    ((0xEF : Nat) <<< 16) ||| (((0x40 : Nat) <<< 8) ||| 0x17) = 0xEF4017 ∧
    chip_sizes 0xEF4017 = some (4, 256, 4096) ∧
    mkChipInfo 0xEF 0x4017 4 256 4096 = none ∧
    capacity_bytes ⟨0xEF, 0x4017, 4, 256, 4096⟩ = 4 * 1024 * 1024 ∧
    detect_chip (.returns [0x00, 0x00, 0x00]) = none ∧
    ∀ x : XferOutcome, detect_chip x = none := by
  refine ⟨by decide, by decide, by decide, by decide, by decide, by decide, ?_⟩
  intro x
  match x with
  | .throws => rfl
  | .returns [] => rfl
  | .returns [r0] => rfl
  | .returns [r0, r1] => rfl
  | .returns (r0 :: r1 :: r2 :: rest) =>
      show (match chip_sizes ((r0 <<< 16) ||| ((r1 <<< 8) ||| r2)) with
        | some (size_mb, page_size, sector_size) =>
            mkChipInfo r0 ((r1 <<< 8) ||| r2) size_mb page_size sector_size
        | none => none) = none
      cases chip_sizes ((r0 <<< 16) ||| ((r1 <<< 8) ||| r2)) with
      | none => rfl
      | some t => rfl

/-- C8: for every controller whose session is disconnected (the connected
flag is down or the transport handle is absent), read_firmware reports the
NotConnected contract violation — the ConnectionError raised by the
connection guard propagates to the caller — and performs zero transport
calls and emits zero progress notifications. -/
theorem c8_not_connected (c : Controller) (o : Oracle) (start : Nat)
    (len : Option Nat) (h : c.is_connected = false ∨ c.spi = false) :
    read_firmware c o start len = (.notConnected, [], []) :=
  read_firmware_no_session c o start len h

theorem c8_not_connected_witness :
    ((⟨false, true, none⟩ : Controller).is_connected = false ∨
      (⟨false, true, none⟩ : Controller).spi = false) ∧
    read_firmware ⟨false, true, none⟩ throwOracle 0 none =
      (.notConnected, [], []) :=
  ⟨Or.inl rfl,
    c8_not_connected ⟨false, true, none⟩ throwOracle 0 none (Or.inl rfl)⟩

/-- C2 as stated is false: the value read_firmware returns on a chunk that
exhausts its 3 attempts is the bare failure None (FWResult.failed), which
carries neither the failing address nor the partial byte count — two runs
whose first unreadable chunks are at different addresses (0 and 100)
return identical values to the caller, so the returned outcome cannot
identify the failing address.  The failing address appears only in the
internal IOError (the aborted loop outcome below). -/
theorem c2_failure_counterexample :
    (readLoop throwOracle 0 0 50 []).outcome = .aborted 0 0 ∧
    (readLoop throwOracle 0 100 50 []).outcome = .aborted 100 0 ∧
    (read_firmware ⟨true, true, none⟩ throwOracle 0 (some 50)).1 = .failed ∧
    (read_firmware ⟨true, true, none⟩ throwOracle 100 (some 50)).1 = .failed ∧
    (read_firmware ⟨true, true, none⟩ throwOracle 0 (some 50)).1 =
      (read_firmware ⟨true, true, none⟩ throwOracle 100 (some 50)).1 := by
  have h1 : (readLoop throwOracle 0 0 50 []).outcome = .aborted 0 0 := by
    rw [readLoop]
    simp [read_chunk, read_chunk_go, throwOracle]
  have h2 : (readLoop throwOracle 0 100 50 []).outcome = .aborted 100 0 := by
    rw [readLoop]
    simp [read_chunk, read_chunk_go, throwOracle]
  have h3 : (read_firmware ⟨true, true, none⟩ throwOracle 0 (some 50)).1 =
      .failed := by
    rw [read_firmware_run ⟨true, true, none⟩ throwOracle 0 (some 50) 50 rfl rfl
      (eff_length_some_pos 50 (by norm_num) _)]
    simp only
    rw [h1]
    rfl
  have h4 : (read_firmware ⟨true, true, none⟩ throwOracle 100 (some 50)).1 =
      .failed := by
    rw [read_firmware_run ⟨true, true, none⟩ throwOracle 100 (some 50) 50 rfl rfl
      (eff_length_some_pos 50 (by norm_num) _)]
    simp only
    rw [h2]
    rfl
  exact ⟨h1, h2, h3, h4, by rw [h3, h4]⟩

/-- C2 amended: when some chunk exhausts all 3 attempts, read_firmware
returns the failure value None (failed) to the caller; at the abort point
the raised IOError identifies the start address of the first unreadable
chunk, which equals start_address plus the accumulated byte count, and the
bytes accumulated before it equal the sum of the previously completed
chunk sizes — but the value returned to the caller carries neither. -/
theorem c2_abort_accounting (c : Controller) (o : Oracle) (start : Nat)
    (len : Option Nat) (L a p : Nat)
    (hcon : c.is_connected = true) (hspi : c.spi = true)
    (heff : eff_length len c.chip_info = some L)
    (habort : (readLoop o 0 start L []).outcome = .aborted a p) :
    read_firmware c o start len =
      (.failed, (readLoop o 0 start L []).requests,
        (readLoop o 0 start L []).progress) ∧
    a = start + p ∧
    ∃ i, i < (chunkSizes L).length ∧ p = ((chunkSizes L).take i).sum := by
  obtain ⟨i, hi, ha, hp, hprog⟩ := readLoop_aborted_spec o L 0 start [] a p habort
  simp only [List.length_nil, Nat.zero_add] at hp
  refine ⟨?_, by omega, ⟨i, hi, hp⟩⟩
  rw [read_firmware_run c o start len L hcon hspi heff]
  rw [habort]
  rfl

theorem c2_abort_accounting_witness :
    eff_length (some 5) none = some 5 ∧
    (readLoop throwOracle 0 7 5 []).outcome = .aborted 7 0 ∧
    (read_firmware ⟨true, true, none⟩ throwOracle 7 (some 5) =
      (.failed, (readLoop throwOracle 0 7 5 []).requests,
        (readLoop throwOracle 0 7 5 []).progress) ∧
      7 = 7 + 0 ∧
      ∃ i, i < (chunkSizes 5).length ∧ 0 = ((chunkSizes 5).take i).sum) :=
  have habort : (readLoop throwOracle 0 7 5 []).outcome = .aborted 7 0 := by
    rw [readLoop]
    simp [read_chunk, read_chunk_go, throwOracle]
  ⟨rfl, habort,
    c2_abort_accounting ⟨true, true, none⟩ throwOracle 7 (some 5) 5 7 0
      rfl rfl rfl habort⟩

/-- C3 is violated by the code: with a cached chip identity, a request
with length = 0 is not rejected as invalid and does not perform zero
transport calls.  Because the guard is the Python-falsy test
(if not length), length 0 is conflated with the omitted length None and
silently defaults to the full chip capacity: the call issues transport
requests and returns the whole 4 MiB image as success. -/
theorem c3_zero_length_reads_whole_chip :
    (read_firmware ⟨true, true, some ⟨0xEF, 0x4017, 4, 256, 4096⟩⟩
        (goodOracle respZero) 0 (some 0)).1 =
      .success (goodReadData respZero 0 0 4194304) ∧
    (goodReadData respZero 0 0 4194304).length = 4194304 ∧
    (read_firmware ⟨true, true, some ⟨0xEF, 0x4017, 4, 256, 4096⟩⟩
        (goodOracle respZero) 0 (some 0)).2.1 ≠ [] := by
  have heff : eff_length (some 0) (some ⟨0xEF, 0x4017, 4, 256, 4096⟩) =
      some 4194304 := rfl
  have hrun := read_firmware_run ⟨true, true, some ⟨0xEF, 0x4017, 4, 256, 4096⟩⟩
    (goodOracle respZero) 0 (some 0) 4194304 rfl rfl heff
  rw [hrun]
  rw [readLoop_good respZero respZero_good 4194304 0 0 []]
  refine ⟨rfl, goodReadData_length respZero respZero_good 4194304 0 0, ?_⟩
  simp only
  intro hreq
  have hmap := goodRequests_map_snd 4194304 0
  rw [hreq] at hmap
  have hne := chunkSizes_ne_nil 4194304 (by norm_num)
  simp at hmap
  exact hne hmap

/-- C7 fails on the code: there is no capacity bound check.  With the
2 MiB chip W25Q16 cached, a read of 5 bytes starting at address 2097152
(the chip capacity) exceeds capacity_bytes, yet read_firmware issues
transport transactions and returns success rather than reporting an
invalid request. -/
theorem c7_capacity_counterexample :
    capacity_bytes ⟨0xEF, 0x4016, 2, 256, 4096⟩ < 2097152 + 5 ∧
    (read_firmware ⟨true, true, some ⟨0xEF, 0x4016, 2, 256, 4096⟩⟩
        (goodOracle respZero) 2097152 (some 5)).1 =
      .success (List.replicate 5 0) ∧
    (read_firmware ⟨true, true, some ⟨0xEF, 0x4016, 2, 256, 4096⟩⟩
        (goodOracle respZero) 2097152 (some 5)).2.1 ≠ [] := by
  have hrun := read_firmware_run ⟨true, true, some ⟨0xEF, 0x4016, 2, 256, 4096⟩⟩
    (goodOracle respZero) 2097152 (some 5) 5 rfl rfl
    (eff_length_some_pos 5 (by norm_num) _)
  refine ⟨by norm_num [capacity_bytes], ?_, ?_⟩
  · rw [hrun]
    rw [readLoop_good respZero respZero_good 5 0 2097152 []]
    simp only
    rw [goodReadData_eq_cons respZero 0 2097152 5 (by norm_num)]
    have hm : min 5 buffer_size = 5 := by decide
    rw [hm]
    norm_num
    rw [goodReadData_eq_nil]
    simp [respZero, outcomeResult]
  · rw [hrun]
    rw [readLoop_good respZero respZero_good 5 0 2097152 []]
    simp only
    rw [goodRequests_eq_cons 2097152 5 (by norm_num)]
    simp

/-- C7 amended: the code performs no capacity-bound check at all — for a
connected controller with a known chip identity, a request whose range
start_address + length strictly exceeds capacity_bytes is not rejected:
with a never-failing transport it issues its transactions and returns the
full requested length as success. -/
theorem c7_no_capacity_check (c : Controller)
    (resp : Nat → List Nat → Nat → List Nat) (start L : Nat) (ci : ChipInfo)
    (hcon : c.is_connected = true) (hspi : c.spi = true)
    (hresp : GoodResp resp) (hL : 0 < L)
    (hci : c.chip_info = some ci)
    (hover : capacity_bytes ci < start + L) :
    (read_firmware c (goodOracle resp) start (some L)).1 =
      .success (goodReadData resp 0 start L) ∧
    (goodReadData resp 0 start L).length = L := by
  refine ⟨?_, goodReadData_length resp hresp L 0 start⟩
  rw [read_firmware_run c (goodOracle resp) start (some L) L hcon hspi
    (eff_length_some_pos L hL _)]
  rw [readLoop_good resp hresp L 0 start []]
  rfl

theorem c7_no_capacity_check_witness :
    GoodResp respZero ∧ 0 < 5 ∧
    (⟨true, true, some ⟨0xEF, 0x4016, 2, 256, 4096⟩⟩ : Controller).chip_info =
      some ⟨0xEF, 0x4016, 2, 256, 4096⟩ ∧
    capacity_bytes ⟨0xEF, 0x4016, 2, 256, 4096⟩ < 2097152 + 5 ∧
    ((read_firmware ⟨true, true, some ⟨0xEF, 0x4016, 2, 256, 4096⟩⟩
        (goodOracle respZero) 2097152 (some 5)).1 =
      .success (goodReadData respZero 0 2097152 5) ∧
      (goodReadData respZero 0 2097152 5).length = 5) :=
  ⟨respZero_good, by decide, rfl, by norm_num [capacity_bytes],
    c7_no_capacity_check ⟨true, true, some ⟨0xEF, 0x4016, 2, 256, 4096⟩⟩
      respZero 2097152 5 ⟨0xEF, 0x4016, 2, 256, 4096⟩ rfl rfl respZero_good
      (by decide) rfl (by norm_num [capacity_bytes])⟩

/-- C9: for every read with a connected session and positive effective
length, the progress notifications are strictly increasing in bytes_done;
on success they are exactly the partial sums of the chunk schedule (one
notification per completed chunk); on failure they are the partial sums of
a proper prefix of the schedule (none for the failed chunk itself); and
the last notification equals bytes_total exactly when the read succeeds.
The trace lists everything emitted during the call, so nothing is emitted
after the final result is returned. -/
theorem c9_progress_monotone (o : Oracle) (c : Controller) (start L : Nat)
    (hcon : c.is_connected = true) (hspi : c.spi = true) (hL : 0 < L) :
    List.Chain' (· < ·) (read_firmware c o start (some L)).2.2 ∧
    (∀ d, (read_firmware c o start (some L)).1 = .success d →
      (read_firmware c o start (some L)).2.2 =
        partialSumsFrom 0 (chunkSizes L)) ∧
    ((read_firmware c o start (some L)).1 = .failed →
      ∃ i, i < (chunkSizes L).length ∧
        (read_firmware c o start (some L)).2.2 =
          partialSumsFrom 0 ((chunkSizes L).take i)) ∧
    ((∃ d, (read_firmware c o start (some L)).1 = .success d) ↔
      (read_firmware c o start (some L)).2.2.getLastD 0 = L) := by
  rw [read_firmware_run c o start (some L) L hcon hspi
    (eff_length_some_pos L hL _)]
  simp only
  cases hout : (readLoop o 0 start L []).outcome with
  | complete d =>
      obtain ⟨hdlen, hprog⟩ := readLoop_complete_spec o L 0 start [] d hout
      simp only [List.length_nil] at hprog
      rw [hprog]
      refine ⟨partialSumsFrom_chain (chunkSizes L) (chunkSizes_pos L) 0,
        fun d' _ => rfl, ?_, ?_, ?_⟩
      · intro hfail
        simp [outcomeResult] at hfail
      · intro _
        rw [partialSumsFrom_getLastD (chunkSizes L) 0, chunkSizes_sum]
        omega
      · intro _
        exact ⟨d, rfl⟩
  | aborted a p =>
      obtain ⟨i, hi, ha, hp, hprog⟩ := readLoop_aborted_spec o L 0 start [] a p hout
      simp only [List.length_nil] at hprog
      rw [hprog]
      have hposTake : ∀ x ∈ (chunkSizes L).take i, 0 < x :=
        fun x hx => chunkSizes_pos L x (List.take_subset _ _ hx)
      refine ⟨partialSumsFrom_chain _ hposTake 0, ?_, fun _ => ⟨i, hi, rfl⟩, ?_, ?_⟩
      · intro d' hd'
        simp [outcomeResult] at hd'
      · rintro ⟨d', hd'⟩
        simp [outcomeResult] at hd'
      · intro hlast
        exfalso
        rw [partialSumsFrom_getLastD ((chunkSizes L).take i) 0] at hlast
        have hlt := take_sum_lt_of_pos (chunkSizes L) (chunkSizes_pos L) i hi
        rw [chunkSizes_sum] at hlt
        omega

theorem c9_progress_monotone_witness :
    0 < 5 ∧
    (List.Chain' (· < ·)
      (read_firmware ⟨true, true, none⟩ throwOracle 0 (some 5)).2.2 ∧
    (∀ d, (read_firmware ⟨true, true, none⟩ throwOracle 0 (some 5)).1 =
        .success d →
      (read_firmware ⟨true, true, none⟩ throwOracle 0 (some 5)).2.2 =
        partialSumsFrom 0 (chunkSizes 5)) ∧
    ((read_firmware ⟨true, true, none⟩ throwOracle 0 (some 5)).1 = .failed →
      ∃ i, i < (chunkSizes 5).length ∧
        (read_firmware ⟨true, true, none⟩ throwOracle 0 (some 5)).2.2 =
          partialSumsFrom 0 ((chunkSizes 5).take i)) ∧
    ((∃ d, (read_firmware ⟨true, true, none⟩ throwOracle 0 (some 5)).1 =
        .success d) ↔
      (read_firmware ⟨true, true, none⟩ throwOracle 0 (some 5)).2.2.getLastD 0 =
        5)) :=
  ⟨by decide,
    c9_progress_monotone throwOracle ⟨true, true, none⟩ 0 5 rfl rfl (by decide)⟩

/-- C10 (implicit): the fast-read command encodes only the low 24 bits of
the address, so for every start address at least 2^24 the call behaves
exactly as the call at address mod 2^24 — the same value is returned, the
same transport requests are issued and the same progress is reported:
large addresses silently alias low addresses instead of being rejected. -/
theorem c10_address_wraps (o : Oracle) (c : Controller) (a L : Nat)
    (hcon : c.is_connected = true) (hspi : c.spi = true) (ha : 2 ^ 24 ≤ a) :
    fastReadCmd a = fastReadCmd (a % 2 ^ 24) ∧
    (read_firmware c o a (some L)).1 =
      (read_firmware c o (a % 2 ^ 24) (some L)).1 ∧
    (read_firmware c o a (some L)).2.1 =
      (read_firmware c o (a % 2 ^ 24) (some L)).2.1 ∧
    (read_firmware c o a (some L)).2.2 =
      (read_firmware c o (a % 2 ^ 24) (some L)).2.2 := by
  have hmod : a % 2 ^ 24 = (a % 2 ^ 24) % 2 ^ 24 := by
    simp
  refine ⟨fastReadCmd_congr a (a % 2 ^ 24) hmod, ?_⟩
  cases heff : eff_length (some L) c.chip_info with
  | none =>
      rw [read_firmware, read_firmware]
      simp [hcon, hspi, heff]
  | some len =>
      rw [read_firmware_run c o a (some L) len hcon hspi heff]
      rw [read_firmware_run c o (a % 2 ^ 24) (some L) len hcon hspi heff]
      obtain ⟨h1, h2, h3, h4⟩ :=
        readLoop_addr_congr o len 0 a (a % 2 ^ 24) [] hmod
      exact ⟨h1, h3, h4⟩

theorem c10_address_wraps_witness :
    2 ^ 24 ≤ 16777216 ∧
    (fastReadCmd 16777216 = fastReadCmd (16777216 % 2 ^ 24) ∧
    (read_firmware ⟨true, true, none⟩ throwOracle 16777216 (some 5)).1 =
      (read_firmware ⟨true, true, none⟩ throwOracle (16777216 % 2 ^ 24)
        (some 5)).1 ∧
    (read_firmware ⟨true, true, none⟩ throwOracle 16777216 (some 5)).2.1 =
      (read_firmware ⟨true, true, none⟩ throwOracle (16777216 % 2 ^ 24)
        (some 5)).2.1 ∧
    (read_firmware ⟨true, true, none⟩ throwOracle 16777216 (some 5)).2.2 =
      (read_firmware ⟨true, true, none⟩ throwOracle (16777216 % 2 ^ 24)
        (some 5)).2.2) :=
  ⟨by norm_num,
    c10_address_wraps throwOracle ⟨true, true, none⟩ 16777216 5 rfl rfl
      (by norm_num)⟩
